import Mathlib

/-!
Verification of the `quintans/streams` push-based reactive-stream library
(`stream.go`, `collect.go`).

The Go library represents a `Stream[T]` as a function from an `Observer[T]`
(three nilable callbacks) to a `Subscription` (a cancellation thunk).  The
synchronous fragment is embedded in state-passing style: callbacks act on an
abstract downstream state `σ`, a `nil` Go function field is `none`, and a Go
panic (calling a `nil` function) is an `Option` failure (`none`).  The
asynchronous producers (`Periodic`, `Accept`, `FromListener`) and `Flatten`'s
event-driven completion join are embedded as explicit state machines over the
invocations of their callbacks.
-/

namespace Streams

variable {σ β ρ T U X : Type}

/-- Go `Observer[T]` (stream.go lines 8-12): a record of three callbacks.  In
Go each function field may be `nil`; an absent callback is `none`.  Callbacks
are embedded in state-passing style over a downstream state `σ`: `Next` takes
the delivered value and the current state and yields the continue flag and the
updated state.  A callback built by an operator may itself call a `nil`
callback of the observer it wraps, which in Go is a panic; a panic is an
`Option` failure, so every callback returns in the `Option` monad. -/
structure Observer (σ T : Type) where
  Next : Option (T → σ → Option (Bool × σ))
  Error : Option (σ → Option σ)
  Complete : Option (σ → Option σ)

/-- Go `Subscription` (stream.go line 15): a cancellation handle, embedded as
a transformer of the downstream state (`none` models a panic while
cancelling). -/
abbrev Subscription (σ : Type) : Type := σ → Option σ

/-- Go `Stream[T]` (stream.go line 16): a producer — a function from an
`Observer` to a `Subscription`.  Activation receives the initial downstream
state and returns the state after all synchronous deliveries together with
the cancellation handle (`none` models a panic during activation). -/
abbrev Stream (σ T : Type) : Type := Observer σ T → σ → Option (σ × Subscription σ)

/-- An unguarded Go call site `observer.Next(v)`: calling a `nil` function
panics, so a `nil` `Next` yields `none`. -/
def callNext (obs : Observer σ T) (v : T) (s : σ) : Option (Bool × σ) :=
  match obs.Next with
  | none => none
  | some f => f v s

/-- The guarded completion call
`if observer.Complete != nil { observer.Complete() }` that every completion
site in stream.go performs: an absent callback is simply skipped. -/
def completeIfPresent (obs : Observer σ T) (s : σ) : Option σ :=
  match obs.Complete with
  | none => some s
  | some f => f s

/-- Lift a callback of a downstream observer over state `σ` to the enlarged
state `σ × β` that an operator threads for its own captured variable (the Go
closure mutates only the downstream state; the operator's variable passes
through unchanged). -/
def liftCB (f : σ → Option σ) : σ × β → Option (σ × β) :=
  fun ss => (f ss.1).map (fun s1 => (s1, ss.2))

/-- Lift a `Next` callback over state `σ` to the enlarged state `σ × β`, used
where Go passes `observer.Next` through unchanged underneath extra operator
state. -/
def liftNext (f : T → σ → Option (Bool × σ)) : T → σ × β → Option (Bool × (σ × β)) :=
  fun t ss => (f t ss.1).map (fun r => (r.1, (r.2, ss.2)))

/-- The delivery loop of Go `From` (stream.go lines 56-60):
`for _, v := range args { if !observer.Next(v) { break } }`, with the
unguarded `observer.Next` call. -/
def fromLoop (obs : Observer σ T) : List T → σ → Option σ
  | [], s => some s
  | v :: rest, s =>
    match callNext obs v s with
    | none => none
    | some (ok, s1) => if ok then fromLoop obs rest s1 else some s1

/-- Go `From` (stream.go lines 54-67): replays `args` synchronously, breaking
as soon as `Next` returns false, then performs the guarded `Complete` call and
returns the no-op subscription `func() {}`. -/
def From (args : List T) : Stream σ T := fun obs s => do
  let s1 ← fromLoop obs args s
  let s2 ← completeIfPresent obs s1
  pure (s2, fun t => some t)

/-- Go `ToSlice` (collect.go lines 3-9): the returned closure appends the
value to the captured slice `a` and returns the slice; the captured slice is
the closure's state. -/
def ToSlice (t : T) (a : List T) : List T × List T :=
  (a ++ [t], a ++ [t])

/-- The observer Go `Collect` builds (stream.go lines 142-147): `Next` stores
the collector's result and always continues; `Error` and `Complete` are left
`nil`.  The collector closure's captured state `ρ` and the stored result `x`
are threaded together as the state pair. -/
def collectObs (fn : T → ρ → X × ρ) : Observer (X × ρ) T where
  Next := some (fun t xr => let xr1 := fn t xr.2; some (true, (xr1.1, xr1.2)))
  Error := none
  Complete := none

/-- Go `Collect` (stream.go lines 140-152): drives the source with
`collectObs` and returns the last stored result.  `x0` is the Go zero value
of `X` and `r0` the collector closure's initial captured state. -/
def Collect (fn : T → ρ → X × ρ) (x0 : X) (r0 : ρ) (source : Stream (X × ρ) T) :
    Option X :=
  (source (collectObs fn) (x0, r0)).map (fun r => r.1.1)

/-- A downstream observer used throughout the development: it records every
delivered value in a log and counts `Complete` invocations, accepting a value
exactly when the predicate `p` holds of it. -/
def predObs (p : T → Bool) : Observer (List T × Nat) T where
  Next := some (fun t s => some (p t, (s.1 ++ [t], s.2)))
  Error := none
  Complete := some (fun s => some (s.1, s.2 + 1))

/-- The wrapped observer of Go `Map` (stream.go lines 157-163): each value is
transformed through `f` before the unguarded downstream `Next`; `Error` and
`Complete` are the downstream callbacks passed through unchanged. -/
def mapObs (f : T → U) (observer : Observer σ U) : Observer σ T where
  Next := some (fun data s => callNext observer (f data) s)
  Error := observer.Error
  Complete := observer.Complete

/-- Go `Map` (stream.go lines 154-166). -/
def Map (f : T → U) (source : Stream σ T) : Stream σ U := fun observer s =>
  source (mapObs f observer) s

/-- The wrapped observer of Go `Filter` (stream.go lines 171-179): values
failing the predicate are dropped (continuing with true), the rest go to the
unguarded downstream `Next`. -/
def filterObs (f : T → Bool) (observer : Observer σ T) : Observer σ T where
  Next := some (fun data s => if f data then callNext observer data s else some (true, s))
  Error := observer.Error
  Complete := observer.Complete

/-- Go `Filter` (stream.go lines 168-183). -/
def Filter (f : T → Bool) (source : Stream σ T) : Stream σ T := fun observer s =>
  source (filterObs f observer) s

/-- The wrapped observer of Go `Take` (stream.go lines 189-200): the captured
counter `i` is threaded as extra state.  On each value:
`ok := observer.Next(data); i++; if !ok || i == n { return false }; return ok`. -/
def takeObs (n : Int) (observer : Observer σ T) : Observer (σ × Int) T where
  Next := some (fun data ss => do
    let (ok, s1) ← callNext observer data ss.1
    let i1 := ss.2 + 1
    if !ok || i1 == n then pure (false, (s1, i1)) else pure (ok, (s1, i1)))
  Error := observer.Error.map liftCB
  Complete := observer.Complete.map liftCB

/-- Go `Take` (stream.go lines 185-203): the counter starts at 0 and the
upstream subscription is returned. -/
def Take (n : Int) (source : Stream (σ × Int) T) : Stream σ T := fun observer s => do
  let (ss, sub) ← source (takeObs n observer) (s, 0)
  pure (ss.1, fun t => (sub (t, ss.2)).map (fun r => r.1))

/-- The wrapped observer of Go `Reduce` (stream.go lines 241-248): the
captured accumulator `current` is threaded as extra state; each upstream value
updates it and the new accumulator goes to the unguarded downstream `Next`. -/
def reduceObs (f : U → T → U) (observer : Observer σ U) : Observer (σ × U) T where
  Next := some (fun data ss => do
    let cur := f ss.2 data
    let (ok1, s2) ← callNext observer cur ss.1
    pure (ok1, (s2, cur)))
  Error := observer.Error.map liftCB
  Complete := observer.Complete.map liftCB

/-- Go `Reduce` (stream.go lines 233-251): delivers `initialValue` downstream
immediately (unguarded `Next`); if it is rejected, the no-op subscription
`func() {}` is returned and `source` is never activated; otherwise `source`
is activated with `reduceObs`. -/
def Reduce (initialValue : U) (f : U → T → U) (source : Stream (σ × U) T) :
    Stream σ U := fun observer s => do
  let (ok, s1) ← callNext observer initialValue s
  if !ok then pure (s1, fun t => some t)
  else do
    let (ss, sub) ← source (reduceObs f observer) (s1, initialValue)
    pure (ss.1, fun t => (sub (t, ss.2)).map (fun r => r.1))

/-- Go `StartWith` (stream.go lines 253-263): delivers the prepended value
(unguarded `Next`); if rejected, the upstream is never activated and the
subscription is the no-op. -/
def StartWith (data : T) (source : Stream σ T) : Stream σ T := fun observer s => do
  let (ok, s1) ← callNext observer data s
  if !ok then pure (s1, fun t => some t)
  else source observer s1

/-- The completion barrier closure Go `Merge` registers on every source
(stream.go lines 213-220): the shared counter `numCompleted` (the extra `Nat`
state) is incremented, and exactly when it equals the number `k` of sources
the guarded downstream `Complete` fires. -/
def mergeComplete (k : Nat) (observer : Observer σ T) (ss : σ × Nat) :
    Option (σ × Nat) :=
  let c := ss.2 + 1
  if c == k then (completeIfPresent observer ss.1).map (fun s1 => (s1, c))
  else some (ss.1, c)

/-- The shared observer Go `Merge` hands to every source (stream.go lines
211-222): `Next` and `Error` are the downstream callbacks passed through
unchanged (a `nil` downstream callback stays `nil`); `Complete` is the
barrier `mergeComplete`. -/
def mergeObserver (k : Nat) (observer : Observer σ T) : Observer (σ × Nat) T where
  Next := observer.Next.map liftNext
  Error := observer.Error.map liftCB
  Complete := some (mergeComplete k observer)

/-- The activation loop of Go `Merge` (stream.go lines 210-223): activates
the sources in order against the shared observer, collecting the
subscriptions. -/
def mergeLoop (obs : Observer (σ × Nat) T) :
    List (Stream (σ × Nat) T) → σ × Nat →
      Option ((σ × Nat) × List (Subscription (σ × Nat)))
  | [], ss => some (ss, [])
  | st :: rest, ss => do
    let (ss1, sub) ← st obs ss
    let (ss2, subs) ← mergeLoop obs rest ss1
    pure (ss2, sub :: subs)

/-- The cancellation loop of Go `Merge`'s subscription (stream.go lines
225-229): `for _, unsub := range unsubscribes { unsub() }`. -/
def runSubs : List (Subscription σ) → σ → Option σ
  | [], s => some s
  | sub :: rest, s => (sub s).bind (runSubs rest)

/-- Go `Merge` (stream.go lines 205-231): the shared counter starts at 0; the
returned subscription invokes every collected subscription in order. -/
def Merge (streams : List (Stream (σ × Nat) T)) : Stream σ T := fun observer s => do
  let (ss, subs) ← mergeLoop (mergeObserver streams.length observer) streams (s, 0)
  pure (ss.1, fun t => (runSubs subs (t, ss.2)).map (fun r => r.1))

/-- A downstream observer that accepts every value without touching the state
and counts `Complete` invocations in a `Nat` state. -/
def countObs {T : Type} : Observer Nat T where
  Next := some (fun _t n => some (true, n))
  Error := none
  Complete := some (fun n => some (n + 1))

/-- `j` successive invocations of the `Merge` completion barrier
`mergeComplete k` over the completion-counting downstream, both the
downstream count and the shared counter starting at 0 — the effect of `j` of
the `k` merged sources each delivering its own completion. -/
def mergeCompletions (k : Nat) : Nat → Option (Nat × Nat)
  | 0 => some (0, 0)
  | j + 1 => (mergeCompletions k j).bind (mergeComplete k (@countObs Unit))

/-- The two observable downstream effects of an `Accept` cancellation, used
to record their order: the Observer's `Complete` and the caller-supplied
`completed` callback. -/
inductive AcceptAct
  | obsComplete
  | userCompleted
deriving DecidableEq

/-- Go `Accept`'s push function (stream.go lines 72-77): `aobs` models the
shared mutable `obs *Observer[T]` slot; with no registered observer the push
reports false with no effect, otherwise it is the unguarded `obs.Next(t)`. -/
def acceptPush (aobs : Option (Observer σ T)) (t : T) (s : σ) : Option (Bool × σ) :=
  match aobs with
  | none => some (false, s)
  | some o => callNext o t s

/-- Go `Accept`'s activation (stream.go lines 78-79): stores the observer in
the shared slot. -/
def acceptActivate (observer : Observer σ T) : Option (Observer σ T) :=
  some observer

/-- Go `Accept`'s subscription (stream.go lines 80-88): sets the slot to
`nil`, then performs the guarded `observer.Complete`, then the caller-supplied
`completed` callback if provided.  The closure uses the `observer` captured at
activation (not the current slot) and carries no one-shot guard. -/
def acceptUnsub (completed : Option (σ → σ)) (observer : Observer σ T) (s : σ) :
    Option (Observer σ T) × Option σ :=
  (none,
    (completeIfPresent observer s).map (fun s1 =>
      match completed with
      | none => s1
      | some g => g s1))

/-- A downstream observer for `Accept` runs: accepts every value untouched
and logs each `Complete` invocation. -/
def acceptLogObs {T : Type} : Observer (List AcceptAct) T where
  Next := some (fun _t l => some (true, l))
  Error := none
  Complete := some (fun l => some (l ++ [AcceptAct.obsComplete]))

/-- The per-activation state of Go `Periodic` (stream.go lines 20-52):
whether the `sync.Once` has fired (equivalently: the ticker is stopped and
`done` is closed, so the goroutine exits), the counter `i`, and the
downstream state. -/
structure PeriodicState (σ : Type) where
  fired : Bool
  i : Int
  s : σ

/-- Go `Periodic`'s `unsub` (stream.go lines 26-34): under the `sync.Once`
guard it stops the ticker, closes `done` and performs the guarded downstream
`Complete`; any later call is a no-op. -/
def periodicUnsub (observer : Observer σ Int) (st : PeriodicState σ) :
    Option (PeriodicState σ) :=
  if st.fired then some st
  else (completeIfPresent observer st.s).map (fun s1 => { st with fired := true, s := s1 })

/-- One tick of Go `Periodic`'s goroutine (stream.go lines 35-48): once
`done` is closed the goroutine has exited and the tick does nothing;
otherwise the unguarded `observer.Next(i)` runs, `unsub` runs if it returned
false, and `i` is incremented. -/
def periodicTick (observer : Observer σ Int) (st : PeriodicState σ) :
    Option (PeriodicState σ) :=
  if st.fired then some st
  else do
    let (ok, s1) ← callNext observer st.i st.s
    let st1 : PeriodicState σ := { st with s := s1 }
    let st2 ← if ok then some st1 else periodicUnsub observer st1
    pure { st2 with i := st2.i + 1 }

/-- The callback Go `FromListener` registers with the external listener
(stream.go lines 100-102): the unguarded `observer.Next(e)` with its boolean
result discarded. -/
def listenerForward (observer : Observer σ T) (e : T) (s : σ) : Option σ :=
  (callNext observer e s).map (fun r => r.2)

/-- Go `FromListener`'s subscription (stream.go lines 104-109):
`listener.Close()` — modelled as the external state action `close` — followed
by the guarded downstream `Complete`. -/
def fromListenerUnsub (close : σ → σ) (observer : Observer σ T) (s : σ) : Option σ :=
  completeIfPresent observer (close s)

/-- An observer whose `Next` callback is `nil` (with the optional `Error`
absent and `Complete` present and harmless), used to exhibit the unguarded
`Next` call sites. -/
def obsNilNext (σ T : Type) : Observer σ T where
  Next := none
  Error := none
  Complete := some (fun s => some s)

/-- Go `Flatten`'s inner-observer `Complete` closure after clearing
`innerSub` (stream.go lines 282-287): the guarded downstream `Complete` fires
only if the outer stream has already completed. -/
def flattenInnerComplete (outerCompleted : Bool) (observer : Observer σ T) (s : σ) :
    Option σ :=
  if outerCompleted then completeIfPresent observer s else some s

/-- The callback invocations observable during one `Flatten` activation
(stream.go lines 265-305): the outer observer's `Next` arriving with a new
inner stream, the active inner observer's `Complete` closure running, and the
outer observer's `Complete` closure running. -/
inductive FlattenEv
  | outerNext
  | innerComplete
  | outerComplete
deriving DecidableEq

/-- The actions a `Flatten` activation performs, in order: invoking the
previous inner subscription, activating a new inner stream (identified by a
fresh number), the active inner stream completing (clearing `innerSub`), and
the guarded downstream `Complete` firing. -/
inductive FlattenAct
  | unsubInner (id : Nat)
  | activateInner (id : Nat)
  | innerDone (id : Nat)
  | fireComplete
deriving DecidableEq

/-- The per-activation state of Go `Flatten` (stream.go lines 267-269): the
live inner subscription `innerSub` (identified by a number; `none` before any
inner arrives or after the active inner completed), the `outerCompleted`
flag, a fresh-identifier counter, and the log of actions performed so far. -/
structure FlattenState where
  innerSub : Option Nat
  outerCompleted : Bool
  nextId : Nat
  log : List FlattenAct
deriving DecidableEq

/-- One callback invocation of Go `Flatten` (stream.go lines 271-295).
`outerNext` (lines 272-290): if an inner subscription is live it is invoked
first, then the new inner stream is activated and becomes the live one.
`innerComplete` (lines 282-287): the live inner's `Complete` closure sets
`innerSub` to nil and fires the guarded downstream `Complete` exactly when
`outerCompleted` is already set.  `outerComplete` (lines 292-294): records
outer completion only — nothing is fired. -/
def flattenStep (st : FlattenState) : FlattenEv → FlattenState
  | FlattenEv.outerNext =>
    { innerSub := some st.nextId
      outerCompleted := st.outerCompleted
      nextId := st.nextId + 1
      log := st.log ++
        ((match st.innerSub with
          | some j => [FlattenAct.unsubInner j]
          | none => []) ++ [FlattenAct.activateInner st.nextId]) }
  | FlattenEv.innerComplete =>
    match st.innerSub with
    | none => st
    | some j =>
      { innerSub := none
        outerCompleted := st.outerCompleted
        nextId := st.nextId
        log := st.log ++ ([FlattenAct.innerDone j] ++
          (if st.outerCompleted then [FlattenAct.fireComplete] else [])) }
  | FlattenEv.outerComplete =>
    { st with outerCompleted := true }

/-- Run one `Flatten` activation over a sequence of callback invocations,
starting from the fresh state of stream.go lines 268-269. -/
def flattenRun (evs : List FlattenEv) : FlattenState :=
  evs.foldl flattenStep
    { innerSub := none, outerCompleted := false, nextId := 0, log := [] }

/-- `liveOk live l`: reading the action log `l` left to right with `live` the
currently live inner subscription — an activation may happen only when no
inner is live, and every unsubscribe or inner completion names the live
inner.  This expresses that at most one inner stream is active at any time
and that a still-live previous inner subscription is invoked before a new
inner stream is activated. -/
def liveOk : Option Nat → List FlattenAct → Bool
  | _, [] => true
  | live, FlattenAct.activateInner i :: rest => live == none && liveOk (some i) rest
  | live, FlattenAct.unsubInner j :: rest => live == some j && liveOk none rest
  | live, FlattenAct.innerDone j :: rest => live == some j && liveOk none rest
  | live, FlattenAct.fireComplete :: rest => liveOk live rest

/-- The live inner subscription after processing the action log `l` starting
from `live`. -/
def liveAfter : Option Nat → List FlattenAct → Option Nat
  | live, [] => live
  | _, FlattenAct.activateInner i :: rest => liveAfter (some i) rest
  | _, FlattenAct.unsubInner _ :: rest => liveAfter none rest
  | _, FlattenAct.innerDone _ :: rest => liveAfter none rest
  | live, FlattenAct.fireComplete :: rest => liveAfter live rest

/-- An observer with a total (non-nil) `Next` callback and absent (`nil`)
`Error` and `Complete` callbacks, used to show that a missing optional
callback never causes a panic. -/
def obsNoComplete (f : T → σ → Bool × σ) : Observer σ T where
  Next := some (fun t s => some (f t s))
  Error := none
  Complete := none

/-- An observer is safe when its `Next` is present and panic-free and any
present `Complete` is panic-free — the well-behaved-downstream assumption
under which the producers themselves must not introduce a panic. -/
def SafeObs (obs : Observer σ T) : Prop :=
  (∃ f, obs.Next = some f ∧ ∀ t s, ((f t s).isSome = true)) ∧
  (∀ g, obs.Complete = some g → ∀ s, ((g s).isSome = true))

lemma From_eq (args : List T) (obs : Observer σ T) (s : σ) :
    From args obs s =
      (fromLoop obs args s).bind (fun s1 =>
        (completeIfPresent obs s1).bind (fun s2 =>
          some (s2, fun t => some t))) := rfl

lemma callNext_predObs (p : T → Bool) (v : T) (s : List T × Nat) :
    callNext (predObs p) v s = some (p v, (s.1 ++ [v], s.2)) := rfl

lemma completeIfPresent_predObs (p : T → Bool) (s : List T × Nat) :
    completeIfPresent (predObs p) s = some (s.1, s.2 + 1) := rfl

lemma fromLoop_predObs_accept (p : T → Bool) (S : List T) (log : List T) (c : Nat)
    (h : ∀ x ∈ S, p x = true) :
    fromLoop (predObs p) S (log, c) = some (log ++ S, c) := by
  induction S generalizing log with
  | nil => simp [fromLoop]
  | cons v rest ih =>
    have hv : p v = true := h v (by simp)
    rw [fromLoop, callNext_predObs, hv]
    simp only [if_true]
    rw [ih (log ++ [v]) (fun x hx => h x (by simp [hx]))]
    simp

lemma fromLoop_predObs_reject (p : T → Bool) (S1 : List T) (v : T) (S2 : List T)
    (log : List T) (c : Nat) (h1 : ∀ x ∈ S1, p x = true) (h2 : p v = false) :
    fromLoop (predObs p) (S1 ++ v :: S2) (log, c) = some (log ++ S1 ++ [v], c) := by
  induction S1 generalizing log with
  | nil =>
    rw [List.nil_append, fromLoop, callNext_predObs, h2]
    simp
  | cons w rest ih =>
    have hw : p w = true := h1 w (by simp)
    rw [List.cons_append, fromLoop, callNext_predObs, hw]
    simp only [if_true]
    rw [ih (log ++ [w]) (fun x hx => h1 x (by simp [hx]))]
    simp

lemma fromLoop_collect (S : List T) (x a : List T) :
    fromLoop (collectObs ToSlice) S (x, a) =
      some (if S.isEmpty then (x, a) else (a ++ S, a ++ S)) := by
  induction S generalizing x a with
  | nil => simp [fromLoop]
  | cons v rest ih =>
    rw [fromLoop]
    show (match some (true, (a ++ [v], a ++ [v])) with
      | none => none
      | some (ok, s1) => if ok then fromLoop (collectObs ToSlice) rest s1 else some s1) = _
    simp only [if_true]
    rw [ih]
    cases rest with
    | nil => simp
    | cons w ws => simp

/-- Claim C6: activating `From S` delivers exactly the values of `S` in order
(so `Collect` with `ToSlice` reproduces `S` with no duplication), stops
delivering as soon as the downstream `Next` returns false, and in both cases
(exhausted or stopped early) performs the guarded `Complete` exactly once. -/
theorem from_claim :
    (∀ (T : Type) (S : List T), Collect ToSlice [] [] (From S) = some S) ∧
    (∀ (T : Type) (p : T → Bool) (S : List T), (∀ x ∈ S, p x = true) →
      ((From S (predObs p) ([], 0)).map (fun r => r.1)) = some (S, 1)) ∧
    (∀ (T : Type) (p : T → Bool) (S1 : List T) (v : T) (S2 : List T),
      (∀ x ∈ S1, p x = true) → p v = false →
      ((From (S1 ++ v :: S2) (predObs p) ([], 0)).map (fun r => r.1)) =
        some (S1 ++ [v], 1)) := by
  refine ⟨?_, ?_, ?_⟩
  · intro T S
    rw [Collect, From_eq, fromLoop_collect]
    cases S with
    | nil => rfl
    | cons v rest => simp [completeIfPresent, collectObs]
  · intro T p S h
    rw [From_eq, fromLoop_predObs_accept p S [] 0 h]
    simp [completeIfPresent_predObs]
  · intro T p S1 v S2 h1 h2
    rw [From_eq, fromLoop_predObs_reject p S1 v S2 [] 0 h1 h2]
    simp [completeIfPresent_predObs]

/-- Concrete instance of `from_claim`: `From [3, 1, 2]` collected into a slice
reproduces the sequence; `From [7, 7]` with an all-accepting recording
downstream delivers `[7, 7]` and completes once; an early stop after `[4, 5]`
out of `[4, 5, 6]` still completes exactly once. -/
theorem from_claim_witness :
    Collect ToSlice [] [] (From ([3, 1, 2] : List Int)) = some [3, 1, 2] ∧
    ((From [7, 7] (predObs (fun _x : Int => true)) ([], 0)).map (fun r => r.1)) =
      some ([7, 7], 1) ∧
    ((From ([4] ++ 5 :: [6]) (predObs (fun (x : Int) => x < 5)) ([], 0)).map
        (fun r => r.1)) = some ([4] ++ [5], 1) :=
  ⟨from_claim.1 Int [3, 1, 2],
   from_claim.2.1 Int (fun _x => true) [7, 7] (by decide),
   from_claim.2.2 Int (fun x => x < 5) [4] 5 [6] (by decide) (by decide)⟩

/-- Claim C1 (failing evaluation): `Take 0` applied to `From [1, 2, 3]` with
an always-accepting recording downstream forwards all three values and lets
the source run to natural completion.  With `n = 0`, the counter is
incremented before the `i == n` comparison, so it never equals 0 and nothing
is ever cut off — contradicting the claim that `Take 0` forwards zero values
and stops on the first encountered value without forwarding it. -/
theorem take_zero_forwards_everything :
    ((Take 0 (From ([1, 2, 3] : List Int)) (predObs (fun _x => true)) ([], 0)).map
        (fun r => r.1)) = some ([1, 2, 3], 1) := by decide

lemma scanl_eq_cons (f : U → T → U) (b : U) (l : List T) :
    List.scanl f b l = b :: (List.scanl f b l).drop 1 := by
  cases l <;> simp [List.scanl_nil, List.scanl_cons]

lemma callNext_reduceObs_predObs (f : U → T → U) (p : U → Bool) (v : T)
    (ss : (List U × Nat) × U) :
    callNext (reduceObs f (predObs p)) v ss =
      some (p (f ss.2 v), ((ss.1.1 ++ [f ss.2 v], ss.1.2), f ss.2 v)) := rfl

lemma completeIfPresent_reduceObs_predObs (f : U → T → U) (p : U → Bool)
    (ss : (List U × Nat) × U) :
    completeIfPresent (reduceObs f (predObs p)) ss =
      some ((ss.1.1, ss.1.2 + 1), ss.2) := rfl

lemma Reduce_eq (init : U) (f : U → T → U) (source : Stream (σ × U) T)
    (observer : Observer σ U) (s : σ) :
    Reduce init f source observer s =
      (callNext observer init s).bind (fun r =>
        if !r.1 then some (r.2, fun t => some t)
        else (source (reduceObs f observer) (r.2, init)).bind (fun rs =>
          some (rs.1.1, fun t => (rs.2 (t, rs.1.2)).map (fun q => q.1)))) := rfl

lemma Reduce_eq_reject (init : U) (f : U → T → U) (source : Stream (σ × U) T)
    (observer : Observer σ U) (s s1 : σ)
    (h : callNext observer init s = some (false, s1)) :
    Reduce init f source observer s = some (s1, fun t => some t) := by
  rw [Reduce_eq, h]; rfl

lemma Reduce_eq_accept (init : U) (f : U → T → U) (source : Stream (σ × U) T)
    (observer : Observer σ U) (s s1 : σ)
    (h : callNext observer init s = some (true, s1)) :
    Reduce init f source observer s =
      (source (reduceObs f observer) (s1, init)).bind (fun rs =>
        some (rs.1.1, fun t => (rs.2 (t, rs.1.2)).map (fun q => q.1))) := by
  rw [Reduce_eq, h]; rfl

lemma fromLoop_reduce (f : U → T → U) (p : U → Bool) (vs : List T) :
    ∀ (acc : U) (log : List U) (c : Nat),
      (∀ x ∈ (List.scanl f acc vs).drop 1, p x = true) →
      fromLoop (reduceObs f (predObs p)) vs ((log, c), acc) =
        some ((log ++ (List.scanl f acc vs).drop 1, c), List.foldl f acc vs) := by
  induction vs with
  | nil => intro acc log c _h; simp [fromLoop, List.scanl_nil]
  | cons v rest ih =>
    intro acc log c h
    have hdrop : (List.scanl f acc (v :: rest)).drop 1 = List.scanl f (f acc v) rest := by
      rw [List.scanl_cons]; rfl
    rw [hdrop] at h
    have hmem : p (f acc v) = true := by
      apply h
      rw [scanl_eq_cons f (f acc v) rest]
      exact List.mem_cons_self _ _
    rw [fromLoop, callNext_reduceObs_predObs]
    simp only [hmem, if_true]
    rw [ih (f acc v) (log ++ [f acc v]) c (fun x hx => by
      apply h
      rw [scanl_eq_cons f (f acc v) rest]
      exact List.mem_cons_of_mem _ hx)]
    rw [hdrop, List.foldl_cons]
    have hlist : (log ++ [f acc v]) ++ (List.scanl f (f acc v) rest).drop 1
        = log ++ List.scanl f (f acc v) rest := by
      rw [List.append_assoc]
      congr 1
      exact (scanl_eq_cons f (f acc v) rest).symm
    rw [hlist]

/-- Claim C5: over an upstream `From [v1..vk]` whose running accumulators the
downstream accepts, `Reduce(initial, fn)` delivers exactly the k+1 values
`initial, fn(initial,v1), fn(fn(initial,v1),v2), …` in order (the `scanl`),
completing once; and if the downstream rejects the initial value, the Reduce
stream returns the no-op subscription and the upstream source is never
activated (the result does not depend on the source at all). -/
theorem reduce_claim :
    (∀ (T U : Type) (init : U) (f : U → T → U) (vs : List T) (p : U → Bool),
      (∀ x ∈ List.scanl f init vs, p x = true) →
      ((Reduce init f (From vs) (predObs p) ([], 0)).map (fun r => r.1)) =
        some (List.scanl f init vs, 1)) ∧
    (∀ (σ T U : Type) (init : U) (f : U → T → U)
       (source1 source2 : Stream (σ × U) T) (obs : Observer σ U) (s s1 : σ),
      callNext obs init s = some (false, s1) →
      Reduce init f source1 obs s = some (s1, fun t => some t) ∧
      Reduce init f source1 obs s = Reduce init f source2 obs s) := by
  constructor
  · intro T U init f vs p h
    have hinit : p init = true := by
      apply h
      rw [scanl_eq_cons f init vs]
      exact List.mem_cons_self _ _
    rw [Reduce_eq_accept init f (From vs) (predObs p) ([], 0) ([init], 0)
      (by rw [callNext_predObs, hinit]; rfl)]
    rw [From_eq, fromLoop_reduce f p vs init [init] 0 (fun x hx => by
      apply h
      rw [scanl_eq_cons f init vs]
      exact List.mem_cons_of_mem _ hx)]
    rw [Option.some_bind, completeIfPresent_reduceObs_predObs, Option.some_bind,
      Option.some_bind]
    simp only [Option.map_some']
    conv_rhs => rw [scanl_eq_cons f init vs]
    rfl
  · intro σ T U init f source1 source2 obs s s1 h
    refine ⟨Reduce_eq_reject init f source1 obs s s1 h, ?_⟩
    rw [Reduce_eq_reject init f source1 obs s s1 h,
      Reduce_eq_reject init f source2 obs s s1 h]

/-- Concrete instance of `reduce_claim`: the spec's own example
`From(1,2,3) → Reduce(10, add)` delivers `10, 11, 13, 16` and completes once;
and with a downstream rejecting the initial value, Reduce returns the no-op
subscription without activating the upstream. -/
theorem reduce_claim_witness :
    ((Reduce (10 : Int) (fun a b => a + b) (From [1, 2, 3]) (predObs (fun _x => true))
        ([], 0)).map (fun r => r.1)) = some ([10, 11, 13, 16], 1) ∧
    Reduce (10 : Int) (fun a b => a + b) (From ([1] : List Int))
        (predObs (fun _x => false)) ([], 0) =
      some (([10], 0), fun t => some t) :=
  ⟨(reduce_claim.1 Int Int 10 (fun a b => a + b) [1, 2, 3] (fun _x => true)
      (by decide)).trans (by decide),
   (reduce_claim.2 (List Int × Nat) Int Int 10 (fun a b => a + b) (From [1])
      (From [2]) (predObs (fun _x => false)) ([], 0) ([10], 0) (by decide)).1⟩

lemma callNext_mergeObserver_countObs (k : Nat) (v : T) (ss : Nat × Nat) :
    callNext (mergeObserver k (@countObs T)) v ss = some (true, ss) := rfl

lemma fromLoop_merge_countObs (k : Nat) (args : List T) (ss : Nat × Nat) :
    fromLoop (mergeObserver k (@countObs T)) args ss = some ss := by
  induction args with
  | nil => rfl
  | cons v rest ih => rw [fromLoop, callNext_mergeObserver_countObs]; simpa using ih

lemma From_merge_countObs (k : Nat) (args : List T) (n c : Nat) :
    From args (mergeObserver k (@countObs T)) (n, c) =
      some ((if c + 1 = k then (n + 1, c + 1) else (n, c + 1)), fun t => some t) := by
  rw [From_eq, fromLoop_merge_countObs]
  by_cases hc : c + 1 = k
  · simp [completeIfPresent, mergeObserver, mergeComplete, countObs, hc]
  · simp [completeIfPresent, mergeObserver, mergeComplete, countObs, hc]

lemma mergeLoop_cons (obs : Observer (σ × Nat) T) (st : Stream (σ × Nat) T)
    (rest : List (Stream (σ × Nat) T)) (ss : σ × Nat) :
    mergeLoop obs (st :: rest) ss =
      (st obs ss).bind (fun r =>
        (mergeLoop obs rest r.1).bind (fun r2 => some (r2.1, r.2 :: r2.2))) := rfl

lemma mergeLoop_from_counts (k : Nat) (ls : List (List T)) : ∀ (n c : Nat),
    ∃ subs, mergeLoop (mergeObserver k (@countObs T)) (ls.map From) (n, c) =
      some ((n + (if c < k ∧ k ≤ c + ls.length then 1 else 0), c + ls.length), subs) := by
  induction ls with
  | nil =>
    intro n c
    refine ⟨[], ?_⟩
    have hno : ¬(c < k ∧ k ≤ c + List.length ([] : List (List T))) := by
      simp only [List.length_nil]; omega
    rw [if_neg hno]
    simp [mergeLoop]
  | cons args rest ih =>
    intro n c
    by_cases hc : c + 1 = k
    · obtain ⟨subs, hsubs⟩ := ih (n + 1) (c + 1)
      refine ⟨(fun t => some t) :: subs, ?_⟩
      rw [List.map_cons, mergeLoop_cons, From_merge_countObs, if_pos hc,
        Option.some_bind, hsubs, Option.some_bind]
      have h1 : ¬(c + 1 < k ∧ k ≤ c + 1 + rest.length) := by omega
      have h2 : c < k ∧ k ≤ c + (args :: rest).length := by
        simp only [List.length_cons]; omega
      rw [if_neg h1, if_pos h2]
      simp only [List.length_cons]
      have e2 : c + 1 + rest.length = c + (rest.length + 1) := by omega
      rw [e2]
    · obtain ⟨subs, hsubs⟩ := ih n (c + 1)
      refine ⟨(fun t => some t) :: subs, ?_⟩
      rw [List.map_cons, mergeLoop_cons, From_merge_countObs, if_neg hc,
        Option.some_bind, hsubs, Option.some_bind]
      have heq : (if c + 1 < k ∧ k ≤ c + 1 + rest.length then 1 else 0)
          = (if c < k ∧ k ≤ c + (args :: rest).length then (1 : Nat) else 0) := by
        simp only [List.length_cons]
        by_cases h1 : c + 1 < k ∧ k ≤ c + 1 + rest.length
        · rw [if_pos h1, if_pos (by omega)]
        · rw [if_neg h1, if_neg (by omega)]
      rw [heq]
      simp only [List.length_cons]
      have e2 : c + 1 + rest.length = c + (rest.length + 1) := by omega
      rw [e2]

lemma Merge_eq (streams : List (Stream (σ × Nat) T)) (observer : Observer σ T)
    (s : σ) :
    Merge streams observer s =
      (mergeLoop (mergeObserver streams.length observer) streams (s, 0)).bind
        (fun rs => some (rs.1.1, fun t =>
          (runSubs rs.2 (t, rs.1.2)).map (fun q => q.1))) := rfl

/-- Claim C4: the `Merge` completion barrier fires the downstream `Complete`
exactly once, precisely at the moment the shared counter reaches the source
count `k` (for `k ≥ 1`): after `j` source completions the downstream has
completed `min 1 (j ≥ k)` times — 0 for `j < k` (in particular `j = k − 1`),
1 from `j = k` on, never twice.  End to end, merging `k ≥ 1` finite `From`
sources delivers exactly one downstream completion. -/
theorem merge_completion_barrier :
    (∀ (k j : Nat), 1 ≤ k →
      mergeCompletions k j = some (if k ≤ j then 1 else 0, j)) ∧
    (∀ ls : List (List Nat), 1 ≤ ls.length →
      ((Merge (ls.map From) countObs 0).map (fun r => r.1)) = some 1) := by
  constructor
  · intro k j hk
    induction j with
    | zero => simp only [mergeCompletions]; rw [if_neg (by omega)]
    | succ j ih =>
      simp only [mergeCompletions]
      rw [ih, Option.some_bind]
      by_cases h1 : j + 1 = k
      · have h2 : ¬k ≤ j := by omega
        rw [if_neg h2, if_pos (by omega : k ≤ j + 1)]
        simp [mergeComplete, completeIfPresent, countObs, beq_iff_eq, h1]
      · by_cases h2 : k ≤ j
        · rw [if_pos h2, if_pos (by omega : k ≤ j + 1)]
          simp [mergeComplete, completeIfPresent, countObs, beq_iff_eq, h1]
        · rw [if_neg h2, if_neg (by omega : ¬k ≤ j + 1)]
          simp [mergeComplete, completeIfPresent, countObs, beq_iff_eq, h1]
  · intro ls hlen
    rw [Merge_eq]
    simp only [List.length_map]
    obtain ⟨subs, hsubs⟩ := mergeLoop_from_counts ls.length ls 0 0
    rw [hsubs, Option.some_bind]
    rw [if_pos (by constructor <;> omega)]
    simp

/-- Concrete instance of `merge_completion_barrier`: with `k = 2` sources the
downstream has not completed after 1 source completion, has completed exactly
once after 2, and stays at one after a third (spurious) completion; merging
`From [7]` and `From [8, 9]` completes exactly once. -/
theorem merge_completion_barrier_witness :
    mergeCompletions 2 1 = some (0, 1) ∧
    mergeCompletions 2 2 = some (1, 2) ∧
    mergeCompletions 2 3 = some (1, 3) ∧
    ((Merge ([[7], [8, 9]].map From) countObs 0).map (fun r => r.1)) = some 1 :=
  ⟨(merge_completion_barrier.1 2 1 (by decide)).trans (by decide),
   (merge_completion_barrier.1 2 2 (by decide)).trans (by decide),
   (merge_completion_barrier.1 2 3 (by decide)).trans (by decide),
   merge_completion_barrier.2 [[7], [8, 9]] (by decide)⟩

/-- Claim C7: `Accept`'s push function returns false (with no effect) before
the Stream is activated; after activation it forwards the value to the
registered Observer's `Next` and returns its boolean result; after the
Subscription is invoked the Observer slot is cleared — so pushes return false
again — the Observer's `Complete` fires, and the caller-supplied completion
callback (when provided) fires afterward. -/
theorem accept_claim :
    (∀ (σ T : Type) (t : T) (s : σ), acceptPush none t s = some (false, s)) ∧
    (∀ (σ T : Type) (observer : Observer σ T) (t : T) (s : σ),
      acceptPush (acceptActivate observer) t s = callNext observer t s) ∧
    (∀ (σ T : Type) (completed : Option (σ → σ)) (observer : Observer σ T) (s : σ),
      (acceptUnsub completed observer s).1 = none) ∧
    (∀ (T : Type) (t : T) (s l : List AcceptAct)
       (completed : Option (List AcceptAct → List AcceptAct))
       (observer : Observer (List AcceptAct) T),
      acceptPush (acceptUnsub completed observer l).1 t s = some (false, s)) ∧
    (∀ (T : Type) (s : List AcceptAct),
      (acceptUnsub (some (fun l => l ++ [AcceptAct.userCompleted]))
          (@acceptLogObs T) s).2 =
        some (s ++ [AcceptAct.obsComplete, AcceptAct.userCompleted])) ∧
    (∀ (T : Type) (s : List AcceptAct),
      (acceptUnsub none (@acceptLogObs T) s).2 = some (s ++ [AcceptAct.obsComplete])) := by
  refine ⟨fun σ T t s => rfl, fun σ T observer t s => rfl, fun σ T c o s => rfl,
    fun T t s l c o => rfl, fun T s => ?_, fun T s => rfl⟩
  simp [acceptUnsub, completeIfPresent, acceptLogObs]

/-- Claim C3 (failing evaluation): `Accept`'s subscription carries no one-shot
guard — invoking it a second time delivers the Observer's `Complete` and the
caller-supplied `completed` callback again.  Starting from an empty log, two
invocations leave both effects in the log twice, where the claim demands the
second invocation perform no further effect. -/
theorem accept_unsub_twice :
    ((acceptUnsub (some (fun l => l ++ [AcceptAct.userCompleted])) (@acceptLogObs Nat)
        []).2.bind
      (fun l1 => (acceptUnsub (some (fun l => l ++ [AcceptAct.userCompleted]))
        (@acceptLogObs Nat) l1).2)) =
      some [AcceptAct.obsComplete, AcceptAct.userCompleted,
            AcceptAct.obsComplete, AcceptAct.userCompleted] := by decide

/-- Claim C10: a non-nil `Next` is an implicit precondition of activation —
every producer calls `Next` with no nil guard, so with a nil `Next` (and the
optional callbacks harmless) `From` panics on the first delivered value yet
completes fine when there is no value to deliver, a live `Periodic` tick
panics, a push into an activated `Accept` panics, and `FromListener`'s
forwarding callback panics. -/
theorem nil_next_crashes :
    (∀ (σ T : Type) (v : T) (rest : List T) (s : σ),
      From (v :: rest) (obsNilNext σ T) s = none) ∧
    (∀ (σ T : Type) (s : σ), (From ([] : List T) (obsNilNext σ T) s).isSome = true) ∧
    (∀ (σ : Type) (i : Int) (s : σ),
      periodicTick (obsNilNext σ Int) ⟨false, i, s⟩ = none) ∧
    (∀ (σ T : Type) (t : T) (s : σ), acceptPush (some (obsNilNext σ T)) t s = none) ∧
    (∀ (σ T : Type) (e : T) (s : σ), listenerForward (obsNilNext σ T) e s = none) := by
  refine ⟨fun σ T v rest s => rfl, fun σ T s => rfl, fun σ i s => rfl,
    fun σ T t s => rfl, fun σ T e s => rfl⟩

lemma liveOk_append (live : Option Nat) (l1 l2 : List FlattenAct) :
    liveOk live (l1 ++ l2) = (liveOk live l1 && liveOk (liveAfter live l1) l2) := by
  induction l1 generalizing live with
  | nil => simp [liveOk, liveAfter]
  | cons a l1 ih => cases a <;> simp [liveOk, liveAfter, ih, Bool.and_assoc]

lemma liveAfter_append (live : Option Nat) (l1 l2 : List FlattenAct) :
    liveAfter live (l1 ++ l2) = liveAfter (liveAfter live l1) l2 := by
  induction l1 generalizing live with
  | nil => rfl
  | cons a l1 ih => cases a <;> simp [liveAfter, ih]

lemma flattenStep_inv (st : FlattenState) (ev : FlattenEv)
    (h1 : liveOk none st.log = true)
    (h2 : liveAfter none st.log = st.innerSub) :
    liveOk none (flattenStep st ev).log = true ∧
    liveAfter none (flattenStep st ev).log = (flattenStep st ev).innerSub := by
  cases ev with
  | outerNext =>
    cases hs : st.innerSub with
    | none =>
      constructor
      · simp [flattenStep, hs, liveOk_append, h1, h2, liveOk]
      · simp [flattenStep, hs, liveAfter_append, h2, liveAfter]
    | some j =>
      constructor
      · simp [flattenStep, hs, liveOk_append, h1, h2, liveOk]
      · simp [flattenStep, hs, liveAfter_append, h2, liveAfter]
  | innerComplete =>
    cases hs : st.innerSub with
    | none =>
      rw [hs] at h2
      constructor
      · simpa [flattenStep, hs] using h1
      · simpa [flattenStep, hs] using h2
    | some j =>
      cases hb : st.outerCompleted with
      | false =>
        constructor
        · simp [flattenStep, hs, hb, liveOk_append, h1, h2, liveOk]
        · simp [flattenStep, hs, hb, liveAfter_append, h2, liveAfter]
      | true =>
        constructor
        · simp [flattenStep, hs, hb, liveOk_append, h1, h2, liveOk]
        · simp [flattenStep, hs, hb, liveAfter_append, h2, liveAfter]
  | outerComplete => exact ⟨h1, h2⟩

lemma flattenRun_inv (evs : List FlattenEv) :
    ∀ st : FlattenState, liveOk none st.log = true →
      liveAfter none st.log = st.innerSub →
      liveOk none (evs.foldl flattenStep st).log = true ∧
      liveAfter none (evs.foldl flattenStep st).log =
        (evs.foldl flattenStep st).innerSub := by
  induction evs with
  | nil => exact fun st h1 h2 => ⟨h1, h2⟩
  | cons ev rest ih =>
    intro st h1 h2
    rw [List.foldl_cons]
    obtain ⟨g1, g2⟩ := flattenStep_inv st ev h1 h2
    exact ih _ g1 g2

/-- Claim C8: in every `Flatten` activation, at most one inner Stream is
active at any time — in the action log of any sequence of callback
invocations, a new inner stream is only ever activated when no inner
subscription is live, and the still-live previous inner subscription is
invoked (or the previous inner completed) before the activation. -/
theorem flatten_single_active (evs : List FlattenEv) :
    liveOk none (flattenRun evs).log = true ∧
    liveAfter none (flattenRun evs).log = (flattenRun evs).innerSub :=
  flattenRun_inv evs _ rfl rfl

/-- Claim C2 counterexample: the outer source delivers one inner stream, the
inner completes, then the outer completes.  Both terminal events have
occurred (the outer completed and the last active inner completed), yet the
downstream `Complete` never fired: the outer-complete closure only sets a
flag, so when the inner completion precedes the outer completion nothing ever
fires — refuting "fires exactly once regardless of the order". -/
theorem flatten_join_counterexample :
    (flattenRun [FlattenEv.outerNext, FlattenEv.innerComplete,
        FlattenEv.outerComplete]).outerCompleted = true ∧
    (flattenRun [FlattenEv.outerNext, FlattenEv.innerComplete,
        FlattenEv.outerComplete]).innerSub = none ∧
    (flattenRun [FlattenEv.outerNext, FlattenEv.innerComplete,
        FlattenEv.outerComplete]).log.count FlattenAct.fireComplete = 0 := by
  decide

lemma run_no_outerComplete (a : List FlattenEv) :
    ∀ st : FlattenState, FlattenEv.outerComplete ∉ a → st.outerCompleted = false →
      (a.foldl flattenStep st).outerCompleted = false ∧
      (a.foldl flattenStep st).log.count FlattenAct.fireComplete
        = st.log.count FlattenAct.fireComplete := by
  induction a with
  | nil => exact fun st _ h2 => ⟨h2, rfl⟩
  | cons ev rest ih =>
    intro st hmem h2
    have hrest : FlattenEv.outerComplete ∉ rest :=
      fun hr => hmem (List.mem_cons_of_mem _ hr)
    rw [List.foldl_cons]
    cases ev with
    | outerComplete => exact absurd (List.mem_cons_self _ _) hmem
    | outerNext =>
      obtain ⟨g1, g2⟩ := ih (flattenStep st FlattenEv.outerNext) hrest
        (by simp [flattenStep, h2])
      refine ⟨g1, g2.trans ?_⟩
      cases hs : st.innerSub <;>
        simp [flattenStep, hs, List.count_append, List.count_cons]
    | innerComplete =>
      obtain ⟨g1, g2⟩ := ih (flattenStep st FlattenEv.innerComplete) hrest
        (by cases hs : st.innerSub <;> simp [flattenStep, hs, h2])
      refine ⟨g1, g2.trans ?_⟩
      cases hs : st.innerSub <;>
        simp [flattenStep, hs, h2, List.count_append, List.count_cons]

lemma run_icompletes (k : Nat) :
    ∀ st : FlattenState, st.outerCompleted = true →
      ((List.replicate k FlattenEv.innerComplete).foldl flattenStep st).log.count
          FlattenAct.fireComplete
        = st.log.count FlattenAct.fireComplete
          + (if st.innerSub.isSome ∧ 0 < k then 1 else 0) := by
  induction k with
  | zero => intro st _; simp
  | succ k ih =>
    intro st hoc
    rw [List.replicate_succ, List.foldl_cons]
    cases hs : st.innerSub with
    | none =>
      have hstep : flattenStep st FlattenEv.innerComplete = st := by
        simp [flattenStep, hs]
      rw [hstep, ih st hoc]
      simp [hs]
    | some j =>
      have hstep : flattenStep st FlattenEv.innerComplete =
          { innerSub := none, outerCompleted := st.outerCompleted,
            nextId := st.nextId,
            log := st.log ++ ([FlattenAct.innerDone j] ++ [FlattenAct.fireComplete]) } := by
        simp [flattenStep, hs, hoc]
      rw [hstep, ih _ (by simpa using hoc)]
      simp [hs, List.count_append, List.count_cons]

/-- Claim C2 amended: in a `Flatten` activation (where, as the protocol
guarantees, no further inner stream arrives after the outer completed), the
downstream `Complete` fires at most once, and it fires exactly once precisely
when an inner Stream is still active at the moment the outer completes and
that inner later delivers its completion; if the active inner completed
before the outer completion — in particular whenever no outer completion
occurs at all — the downstream `Complete` never fires. -/
theorem flatten_join_amended (a : List FlattenEv) (k : Nat)
    (ha : FlattenEv.outerComplete ∉ a) :
    (flattenRun a).log.count FlattenAct.fireComplete = 0 ∧
    (flattenRun (a ++ FlattenEv.outerComplete ::
        List.replicate k FlattenEv.innerComplete)).log.count FlattenAct.fireComplete
      = if (flattenRun a).innerSub.isSome ∧ 0 < k then 1 else 0 := by
  obtain ⟨g1, g2⟩ := run_no_outerComplete a
    { innerSub := none, outerCompleted := false, nextId := 0, log := [] } ha rfl
  constructor
  · simpa using g2
  · rw [flattenRun, List.foldl_append, List.foldl_cons]
    have hstep : flattenStep
        (a.foldl flattenStep
          { innerSub := none, outerCompleted := false, nextId := 0, log := [] })
        FlattenEv.outerComplete =
      { a.foldl flattenStep
          { innerSub := none, outerCompleted := false, nextId := 0, log := [] }
        with outerCompleted := true } := rfl
    rw [hstep, run_icompletes k _ rfl]
    have hcount : ({ a.foldl flattenStep
        { innerSub := none, outerCompleted := false, nextId := 0, log := [] }
        with outerCompleted := true } : FlattenState).log.count
          FlattenAct.fireComplete = 0 := by simpa using g2
    rw [hcount]
    simp [flattenRun]

/-- Concrete instance of `flatten_join_amended`: when the outer completes
while the single inner stream is still active and the inner then completes,
the downstream `Complete` fires exactly once. -/
theorem flatten_join_amended_witness :
    (flattenRun ([FlattenEv.outerNext] ++ FlattenEv.outerComplete ::
        List.replicate 1 FlattenEv.innerComplete)).log.count FlattenAct.fireComplete
      = 1 :=
  ((flatten_join_amended [FlattenEv.outerNext] 1 (by decide)).2).trans (by decide)

lemma isSome_bind {α β : Type} {x : Option α} {f : α → Option β}
    (hx : x.isSome = true) (hf : ∀ a, (f a).isSome = true) :
    (x.bind f).isSome = true := by
  cases x with
  | none => simp at hx
  | some a => exact hf a

lemma isSome_map {α β : Type} (g : α → β) (x : Option α) :
    (x.map g).isSome = x.isSome := by
  cases x <;> rfl

lemma safe_callNext {obs : Observer σ T} (h : SafeObs obs) (t : T) (s : σ) :
    (callNext obs t s).isSome = true := by
  obtain ⟨⟨f, hf, hft⟩, _⟩ := h
  rw [callNext, hf]
  exact hft t s

lemma safe_completeIfPresent {obs : Observer σ T} (h : SafeObs obs) (s : σ) :
    (completeIfPresent obs s).isSome = true := by
  obtain ⟨_, hc⟩ := h
  rw [completeIfPresent]
  cases hco : obs.Complete with
  | none => rfl
  | some g => exact hc g hco s

lemma safe_obsNoComplete (f : T → σ → Bool × σ) : SafeObs (obsNoComplete f) :=
  ⟨⟨_, rfl, fun _t _s => rfl⟩, fun g hg => by simp [obsNoComplete] at hg⟩

lemma fromLoop_isSome {obs : Observer σ T} (h : SafeObs obs) (args : List T) :
    ∀ s : σ, (fromLoop obs args s).isSome = true := by
  induction args with
  | nil => intro s; rfl
  | cons v rest ih =>
    intro s
    rw [fromLoop]
    have hcn := safe_callNext h v s
    cases hc : callNext obs v s with
    | none => rw [hc] at hcn; simp at hcn
    | some r =>
      obtain ⟨ok, s1⟩ := r
      cases ok with
      | true => simpa using ih s1
      | false => rfl

lemma From_isSome {obs : Observer σ T} (h : SafeObs obs) (args : List T) (s : σ) :
    (From args obs s).isSome = true := by
  rw [From_eq]
  refine isSome_bind (fromLoop_isSome h args s) (fun s1 => ?_)
  exact isSome_bind (safe_completeIfPresent h s1) (fun s2 => rfl)

lemma safe_liftCB_complete {β : Type} {co : Option (σ → Option σ)}
    (h2 : ∀ g, co = some g → ∀ s, (g s).isSome = true)
    {g : σ × β → Option (σ × β)} (hg : co.map liftCB = some g) (ss : σ × β) :
    (g ss).isSome = true := by
  obtain ⟨g0, hg0, hgl⟩ := Option.map_eq_some'.mp hg
  rw [← hgl, liftCB, isSome_map]
  exact h2 g0 hg0 ss.1

lemma safe_mapObs (f : T → U) {observer : Observer σ U} (h : SafeObs observer) :
    SafeObs (mapObs f observer) :=
  ⟨⟨_, rfl, fun t s => safe_callNext h (f t) s⟩, fun g hg => h.2 g hg⟩

lemma safe_filterObs (p : T → Bool) {observer : Observer σ T} (h : SafeObs observer) :
    SafeObs (filterObs p observer) := by
  refine ⟨⟨_, rfl, fun t s => ?_⟩, fun g hg => h.2 g hg⟩
  cases hp : p t with
  | true => simpa [hp] using safe_callNext h t s
  | false => simp [hp]

lemma safe_takeObs (n : Int) {observer : Observer σ T} (h : SafeObs observer) :
    SafeObs (takeObs n observer) := by
  refine ⟨⟨_, rfl, fun t ss => ?_⟩, fun g hg => safe_liftCB_complete h.2 hg⟩
  refine isSome_bind (safe_callNext h t ss.1) (fun r => ?_)
  dsimp only
  split <;> rfl

lemma safe_reduceObs (f : U → T → U) {observer : Observer σ U} (h : SafeObs observer) :
    SafeObs (reduceObs f observer) := by
  refine ⟨⟨_, rfl, fun t ss => ?_⟩, fun g hg => safe_liftCB_complete h.2 hg⟩
  exact isSome_bind (safe_callNext h (f ss.2 t) ss.1) (fun r => rfl)

lemma safe_mergeObserver (k : Nat) {observer : Observer σ T} (h : SafeObs observer) :
    SafeObs (mergeObserver k observer) := by
  obtain ⟨⟨f, hf, hft⟩, hc⟩ := h
  constructor
  · refine ⟨liftNext f, ?_, fun t ss => ?_⟩
    · show observer.Next.map liftNext = some (liftNext f)
      rw [hf]; rfl
    · rw [liftNext, isSome_map]
      exact hft t ss.1
  · intro g hg ss
    have hge : g = mergeComplete k observer := by
      have : some (mergeComplete k observer) = some g := hg
      exact (Option.some_inj.mp this).symm
    rw [hge, mergeComplete]
    split
    · rw [isSome_map]
      exact safe_completeIfPresent ⟨⟨f, hf, hft⟩, hc⟩ ss.1
    · rfl

lemma mergeLoop_from_isSome {obs : Observer (σ × Nat) T} (h : SafeObs obs)
    (ls : List (List T)) : ∀ ss : σ × Nat,
    (mergeLoop obs (ls.map From) ss).isSome = true := by
  induction ls with
  | nil => intro ss; rfl
  | cons args rest ih =>
    intro ss
    rw [List.map_cons, mergeLoop_cons]
    refine isSome_bind (From_isSome h args ss) (fun r => ?_)
    exact isSome_bind (ih r.1) (fun r2 => rfl)

lemma Take_eq (n : Int) (source : Stream (σ × Int) T) (observer : Observer σ T)
    (s : σ) :
    Take n source observer s =
      (source (takeObs n observer) (s, 0)).bind (fun rs =>
        some (rs.1.1, fun t => (rs.2 (t, rs.1.2)).map (fun r => r.1))) := rfl

lemma StartWith_eq (d : T) (source : Stream σ T) (observer : Observer σ T) (s : σ) :
    StartWith d source observer s =
      (callNext observer d s).bind (fun r =>
        if !r.1 then some (r.2, fun t => some t) else source observer r.2) := rfl

/-- Claim C9: a missing (`nil`) `Error` or `Complete` callback never causes a
crash — with a downstream observer whose `Next` is total but whose `Error`
and `Complete` are absent, every producer and operator of the library runs
panic-free: `From`, `Periodic`'s cancellation, `Accept`'s cancellation,
`FromListener`'s cancellation, `Flatten`'s completion join, `Merge` over
finite sources, and `Map`/`Filter`/`Take`/`Reduce`/`StartWith` pipelines over
finite sources (every completion-delivery site checks the callback for nil
first, and no error-delivery site exists). -/
theorem nil_complete_never_crashes :
    (∀ (σ T : Type) (f : T → σ → Bool × σ) (args : List T) (s : σ),
      (From args (obsNoComplete f) s).isSome = true) ∧
    (∀ (σ : Type) (f : Int → σ → Bool × σ) (st : PeriodicState σ),
      (periodicUnsub (obsNoComplete f) st).isSome = true) ∧
    (∀ (σ T : Type) (f : T → σ → Bool × σ) (completed : Option (σ → σ)) (s : σ),
      ((acceptUnsub completed (obsNoComplete f) s).2).isSome = true) ∧
    (∀ (σ T : Type) (f : T → σ → Bool × σ) (close : σ → σ) (s : σ),
      (fromListenerUnsub close (obsNoComplete f) s).isSome = true) ∧
    (∀ (σ T : Type) (f : T → σ → Bool × σ) (oc : Bool) (s : σ),
      (flattenInnerComplete oc (obsNoComplete f) s).isSome = true) ∧
    (∀ (σ T : Type) (f : T → σ → Bool × σ) (ls : List (List T)) (s : σ),
      (Merge (ls.map From) (obsNoComplete f) s).isSome = true) ∧
    (∀ (σ T U : Type) (g : T → U) (f : U → σ → Bool × σ) (args : List T) (s : σ),
      (Map g (From args) (obsNoComplete f) s).isSome = true) ∧
    (∀ (σ T : Type) (p : T → Bool) (f : T → σ → Bool × σ) (args : List T) (s : σ),
      (Filter p (From args) (obsNoComplete f) s).isSome = true) ∧
    (∀ (σ T : Type) (n : Int) (f : T → σ → Bool × σ) (args : List T) (s : σ),
      (Take n (From args) (obsNoComplete f) s).isSome = true) ∧
    (∀ (σ T U : Type) (init : U) (g : U → T → U) (f : U → σ → Bool × σ)
       (args : List T) (s : σ),
      (Reduce init g (From args) (obsNoComplete f) s).isSome = true) ∧
    (∀ (σ T : Type) (d : T) (f : T → σ → Bool × σ) (args : List T) (s : σ),
      (StartWith d (From args) (obsNoComplete f) s).isSome = true) := by
  refine ⟨?_, ?_, ?_, ?_, ?_, ?_, ?_, ?_, ?_, ?_, ?_⟩
  · exact fun σ T f args s => From_isSome (safe_obsNoComplete f) args s
  · intro σ f st
    cases hf : st.fired <;>
      simp [periodicUnsub, hf, completeIfPresent, obsNoComplete]
  · intro σ T f completed s
    simp [acceptUnsub, completeIfPresent, obsNoComplete]
  · intro σ T f close s
    simp [fromListenerUnsub, completeIfPresent, obsNoComplete]
  · intro σ T f oc s
    cases oc <;> simp [flattenInnerComplete, completeIfPresent, obsNoComplete]
  · intro σ T f ls s
    rw [Merge_eq]
    exact isSome_bind
      (mergeLoop_from_isSome (safe_mergeObserver _ (safe_obsNoComplete f)) ls (s, 0))
      (fun rs => rfl)
  · exact fun σ T U g f args s => From_isSome (safe_mapObs g (safe_obsNoComplete f)) args s
  · exact fun σ T p f args s => From_isSome (safe_filterObs p (safe_obsNoComplete f)) args s
  · intro σ T n f args s
    rw [Take_eq]
    exact isSome_bind (From_isSome (safe_takeObs n (safe_obsNoComplete f)) args (s, 0))
      (fun rs => rfl)
  · intro σ T U init g f args s
    rw [Reduce_eq]
    refine isSome_bind (safe_callNext (safe_obsNoComplete f) init s) (fun r => ?_)
    dsimp only
    split
    · rfl
    · exact isSome_bind
        (From_isSome (safe_reduceObs g (safe_obsNoComplete f)) args (r.2, init))
        (fun rs => rfl)
  · intro σ T d f args s
    rw [StartWith_eq]
    refine isSome_bind (safe_callNext (safe_obsNoComplete f) d s) (fun r => ?_)
    dsimp only
    split
    · rfl
    · exact From_isSome (safe_obsNoComplete f) args r.2

end Streams
